import Mathlib

/-!
fiber middleware: favicon handler and response compression.

Verification development for two middleware packages of the fiber web
framework.

* `Favicon` embeds `favicon.go`: the constructor `New` and the request
  handler it returns.  A handler run is the ordered list of calls it makes on
  the request context (`c.Path()`, `c.Status(..)`, `c.Set(..)`, `c.Next()` ...)
  together with the value it returns; `exec` replays the calls on a context.
* `Compress` models the compression middleware (negotiator and header
  rewriter).  Its implementation file is not part of the sources at hand, only
  its test file is, so the model follows the written specification.

Go strings are modelled by `String`, with `len` being the UTF-8 byte size;
byte slices are lists of bytes.
-/

set_option autoImplicit false

/-- A Go byte slice. -/
abbrev Bytes := List UInt8

/-- Response headers: key/value pairs, at most one value per key once written by `setHeader`. -/
abbrev Headers := List (String × String)

/-- Setting a header replaces any value stored under the same key. -/
def setHeader (k v : String) (hs : Headers) : Headers :=
  (k, v) :: hs.filter (fun p => p.1 != k)

/-- Removing a header drops every pair stored under the key. -/
def delHeader (k : String) (hs : Headers) : Headers :=
  hs.filter (fun p => p.1 != k)

/-- Reading a header: the value stored under the key, if any. -/
def getHeader (k : String) : Headers → Option String
  | [] => none
  | (k', v) :: hs => if k' == k then some v else getHeader k hs

namespace Favicon

/-- Modelled from the spec: `fiber.MethodGet` is declared in package fiber, not under the
sources; the claims name its value, the HTTP method token GET. -/
def MethodGet : String := "GET"

/-- Modelled from the spec: `fiber.MethodHead`, declared in package fiber; the HTTP method
token HEAD. -/
def MethodHead : String := "HEAD"

/-- Modelled from the spec: `fiber.MethodOptions`, declared in package fiber; the HTTP
method token OPTIONS. -/
def MethodOptions : String := "OPTIONS"

/-- Modelled from the spec: `fiber.StatusOK`, declared in package fiber; HTTP status 200. -/
def StatusOK : Nat := 200

/-- Modelled from the spec: `fiber.StatusNoContent`, declared in package fiber; HTTP
status 204. -/
def StatusNoContent : Nat := 204

/-- Modelled from the spec: `fiber.StatusMethodNotAllowed`, declared in package fiber; HTTP
status 405. -/
def StatusMethodNotAllowed : Nat := 405

/-- Modelled from the spec: `fiber.HeaderAllow`, declared in package fiber; the header
name Allow. -/
def HeaderAllow : String := "Allow"

/-- Modelled from the spec: `fiber.HeaderContentLength`, declared in package fiber; the
header name Content-Length. -/
def HeaderContentLength : String := "Content-Length"

/-- Modelled from the spec: `fiber.HeaderContentType`, declared in package fiber; the
header name Content-Type. -/
def HeaderContentType : String := "Content-Type"

/-- Modelled from the spec: `fiber.HeaderCacheControl`, declared in package fiber; the
header name Cache-Control. -/
def HeaderCacheControl : String := "Cache-Control"

/-- Constant `hType` of favicon.go. -/
def hType : String := "image/x-icon"

/-- Constant `hAllow` of favicon.go. -/
def hAllow : String := "GET, HEAD, OPTIONS"

/-- Constant `hCache` of favicon.go. -/
def hCache : String := "public, max-age=31536000"

/-- Constant `hZero` of favicon.go. -/
def hZero : String := "0"

/-- The part of `*fiber.Ctx` the handler reads and writes: request path and method,
response status, headers and body. -/
structure Ctx where
  path : String
  method : String
  status : Nat
  headers : Headers
  body : Bytes
  deriving DecidableEq

/-- Type `Config` of favicon.go.  A nil `Next` is `none`; the hook is a predicate on the
request context. -/
structure Config where
  Next : Option (Ctx → Bool)
  File : String

/-- Variable `ConfigDefault` of favicon.go. -/
def ConfigDefault : Config :=
  { Next := none, File := "" }

/-- One call made by the handler, in the order of execution. -/
inductive Call where
  /-- The call `cfg.Next(c)` of the skip hook. -/
  | cfgNext
  /-- The call `c.Path()`. -/
  | path
  /-- The call `c.Method()`. -/
  | method
  /-- The call `c.Status(code)`. -/
  | status (code : Nat)
  /-- The call `c.Set(key, val)`. -/
  | set (key val : String)
  /-- The call `c.Send(body)`. -/
  | send (body : Bytes)
  /-- The call `c.SendStatus(code)`. -/
  | sendStatus (code : Nat)
  /-- The call `c.Next()`, which runs the next handler of the chain. -/
  | next
  deriving DecidableEq

/-- What the handler returns: nil, or the value returned by its last framework call. -/
inductive Ret where
  /-- The statement `return nil`. -/
  | nil
  /-- The statement `return c.Next()`. -/
  | ofNext
  /-- The statement `return c.Status(..).Send(..)`. -/
  | ofSend
  /-- The statement `return c.SendStatus(..)`. -/
  | ofSendStatus
  deriving DecidableEq

/-- One run of the handler: the calls it made, in order, and what it returned. -/
structure Run where
  calls : List Call
  ret : Ret
  deriving DecidableEq

/-- The condition `cfg.Next != nil && cfg.Next(c)` with the calls its evaluation makes:
the hook is called only when it is not nil. -/
def skipCheck (cfg : Config) (c : Ctx) : List Call × Bool :=
  match cfg.Next with
  | none => ([], false)
  | some f => ([Call.cfgNext], f c)

/-- The condition `len(c.Path()) != 12 || c.Path() != "/favicon.ico"` with the calls its
evaluation makes: the right operand is evaluated only when the left one is false. -/
def pathCheck (c : Ctx) : List Call × Bool :=
  if c.path.utf8ByteSize != 12 then ([Call.path], true)
  else ([Call.path, Call.path], c.path != "/favicon.ico")

/-- The condition `c.Method() != fiber.MethodGet && c.Method() != fiber.MethodHead` with
the calls its evaluation makes: the right operand is evaluated only when the left one is
true. -/
def methodCheck (c : Ctx) : List Call × Bool :=
  if c.method != MethodGet then ([Call.method, Call.method], c.method != MethodHead)
  else ([Call.method], false)

/-- The closure returned by `New`, over the captured `cfg`, `icon` and `iconLen`. -/
def handler (cfg : Config) (icon : Bytes) (iconLen : String) (c : Ctx) : Run :=
  -- Don't execute middleware if Next returns true
  match skipCheck cfg c with
  | (t0, true) => ⟨t0 ++ [Call.next], Ret.ofNext⟩
  | (t0, false) =>
    -- Only respond to favicon requests
    match pathCheck c with
    | (t1, true) => ⟨t0 ++ t1 ++ [Call.next], Ret.ofNext⟩
    | (t1, false) =>
      -- Only allow GET, HEAD and OPTIONS requests
      match methodCheck c with
      | (t2, true) =>
        let st := if c.method != MethodOptions then Call.status StatusMethodNotAllowed
                  else Call.status StatusOK
        ⟨t0 ++ t1 ++ t2 ++ [Call.method, st, Call.set HeaderAllow hAllow,
            Call.set HeaderContentLength hZero], Ret.nil⟩
      | (t2, false) =>
        -- Serve cached favicon
        if icon.length > 0 then
          ⟨t0 ++ t1 ++ t2 ++ [Call.set HeaderContentLength iconLen,
              Call.set HeaderContentType hType, Call.set HeaderCacheControl hCache,
              Call.status StatusOK, Call.send icon], Ret.ofSend⟩
        else
          ⟨t0 ++ t1 ++ t2 ++ [Call.sendStatus StatusNoContent], Ret.ofSendStatus⟩

/-- Go's `strconv.Itoa` on a length: the decimal digits of a natural number. -/
def Itoa (n : Nat) : String := Nat.repr n

/-- Function `New` of favicon.go.  `readFile` stands for `ioutil.ReadFile` (`none` is a
read error); the result is `none` when `New` panics. -/
def New (readFile : String → Option Bytes) (config : List Config) : Option (Ctx → Run) :=
  -- Set default config
  let cfg := ConfigDefault
  -- Override config if provided
  let cfg :=
    match config with
    | [] => cfg
    | c0 :: _ =>
      let cfg := c0
      -- Set default values
      let cfg := if cfg.Next.isNone then { cfg with Next := ConfigDefault.Next } else cfg
      let cfg := if cfg.File == "" then { cfg with File := ConfigDefault.File } else cfg
      cfg
  -- Load icon if provided
  if cfg.File != "" then
    match readFile cfg.File with
    | none => none
    | some icon => some (handler cfg icon (Itoa icon.length))
  else
    some (handler cfg [] "")

/-- What the rest of the framework does on a context: the next handler of the chain,
run by `c.Next()`, and `c.SendStatus`. -/
structure Env where
  next : Ctx → Ctx
  sendStatus : Nat → Ctx → Ctx

/-- Effect of one call on the context: `Status` stores the status code, `Set` stores a
response header, `Send` stores the body; reading the path or the method and asking the
skip hook change nothing. -/
def Call.apply (env : Env) : Call → Ctx → Ctx
  | Call.cfgNext, c => c
  | Call.path, c => c
  | Call.method, c => c
  | Call.status code, c => { c with status := code }
  | Call.set k v, c => { c with headers := setHeader k v c.headers }
  | Call.send b, c => { c with body := b }
  | Call.sendStatus code, c => env.sendStatus code c
  | Call.next, c => env.next c

/-- Replays the calls of a run, in order, on a context. -/
def exec (env : Env) : List Call → Ctx → Ctx
  | [], c => c
  | call :: rest, c => exec env rest (call.apply env c)

/-- A call that writes to the response: status, header or body. -/
def Call.writes : Call → Bool
  | Call.status _ => true
  | Call.set _ _ => true
  | Call.send _ => true
  | Call.sendStatus _ => true
  | _ => false

end Favicon

namespace Compress

/-- The encodings the middleware can produce (spec: SupportedEncodingSet is drawn from
gzip, deflate, br). -/
inductive Encoding where
  | gzip
  | deflate
  | br
  deriving DecidableEq

/-- The header token of an encoding. -/
def Encoding.token : Encoding → String
  | Encoding.gzip => "gzip"
  | Encoding.deflate => "deflate"
  | Encoding.br => "br"

/-- Modelled from the spec: NegotiationResult, "one chosen encoding token, or identity";
the negotiator's code is missing from the sources. -/
inductive NegotiationResult where
  | identity
  | encoding (e : Encoding)
  deriving DecidableEq

/-- Modelled from the spec: a quality value, "float in [0,1]", kept as the exact decimal
that was written: `num / 10 ^ scale`.  The negotiator's code is missing from the sources. -/
structure Quality where
  num : Nat
  scale : Nat
  deriving DecidableEq

/-- The quality 1.0, the default of a missing or malformed value. -/
def Quality.one : Quality := ⟨1, 0⟩

/-- Order of quality values, by cross multiplication of the two decimals. -/
def Quality.le (a b : Quality) : Prop := a.num * 10 ^ b.scale ≤ b.num * 10 ^ a.scale

/-- Strict order of quality values. -/
def Quality.lt (a b : Quality) : Prop := a.num * 10 ^ b.scale < b.num * 10 ^ a.scale

instance : LE Quality := ⟨Quality.le⟩

instance : LT Quality := ⟨Quality.lt⟩

instance (a b : Quality) : Decidable (a ≤ b) :=
  inferInstanceAs (Decidable (a.num * 10 ^ b.scale ≤ b.num * 10 ^ a.scale))

instance (a b : Quality) : Decidable (a < b) :=
  inferInstanceAs (Decidable (a.num * 10 ^ b.scale < b.num * 10 ^ a.scale))

/-- A quality greater than 0; "a quality of 0 means explicitly rejected". -/
def Quality.pos (q : Quality) : Prop := 0 < q.num

instance (q : Quality) : Decidable q.pos := inferInstanceAs (Decidable (0 < q.num))

/-- Splits a text at every occurrence of a separator character. -/
def splitOn (sep : Char) : List Char → List (List Char)
  | [] => [[]]
  | c :: cs =>
    if c = sep then [] :: splitOn sep cs
    else
      match splitOn sep cs with
      | [] => [[c]]
      | p :: ps => (c :: p) :: ps

/-- Removes leading and trailing whitespace. -/
def trim (s : List Char) : List Char :=
  ((s.dropWhile Char.isWhitespace).reverse.dropWhile Char.isWhitespace).reverse

/-- Splits one header item at the first `;q=`: the text before it, and the text after it
if the separator occurs. -/
def splitQ : List Char → List Char × Option (List Char)
  | [] => ([], none)
  | ';' :: 'q' :: '=' :: rest => ([], some rest)
  | c :: cs => (c :: (splitQ cs).1, (splitQ cs).2)

/-- Value of a string of decimal digits. -/
def digitsVal (s : List Char) : Nat :=
  s.foldl (fun n c => 10 * n + (c.toNat - 48)) 0

/-- Reads a decimal number `ddd`, `ddd.ddd`, `ddd.` or `.ddd`; `none` when the text is
not of that form. -/
def parseDecimal (s : List Char) : Option Quality :=
  let ip := s.takeWhile Char.isDigit
  match s.dropWhile Char.isDigit with
  | [] => if ip.isEmpty then none else some ⟨digitsVal ip, 0⟩
  | '.' :: fp =>
    if fp.all Char.isDigit && !(ip.isEmpty && fp.isEmpty) then
      some ⟨digitsVal (ip ++ fp), fp.length⟩
    else none
  | _ => none

/-- Modelled from the spec: "reject malformed quality values by treating them as 1.0";
a number outside [0,1] is not a quality value and counts as malformed.  The negotiator's
code is missing from the sources. -/
def parseQuality (s : List Char) : Quality :=
  match parseDecimal s with
  | none => Quality.one
  | some q => if q ≤ Quality.one then q else Quality.one

/-- Modelled from the spec: one entry of EncodingPreference, a (token, quality) pair;
tokens are case-insensitive, so the token is kept in lower case.  The negotiator's code is
missing from the sources. -/
structure Entry where
  token : List Char
  quality : Quality
  deriving DecidableEq

/-- Modelled from the spec: "for each token, split on `;q=` to extract quality; trim
whitespace"; "a missing quality value defaults to 1.0".  The negotiator's code is missing
from the sources. -/
def parseEntry (item : List Char) : Entry :=
  match splitQ item with
  | (name, none) => ⟨(trim name).map Char.toLower, Quality.one⟩
  | (name, some q) => ⟨(trim name).map Char.toLower, parseQuality (trim q)⟩

/-- Modelled from the spec: EncodingPreference, "an ordered list of (token, quality) pairs
parsed from Accept-Encoding", by "split on `,`".  The negotiator's code is missing from
the sources. -/
def parseAcceptEncoding (header : String) : List Entry :=
  (splitOn ',' header.data).map parseEntry

/-- The entry names the encoding. -/
def Entry.names (p : Entry) (e : Encoding) : Bool :=
  p.token == e.token.data

/-- The entry is the wildcard `*`. -/
def Entry.isStar (p : Entry) : Bool :=
  p.token == ['*']

/-- The encoding is named by some entry of the header. -/
def listed (prefs : List Entry) (e : Encoding) : Bool :=
  prefs.any (fun p => p.names e)

/-- Modelled from the spec: the supported encoding an entry stands for.  An entry naming a
supported encoding stands for it; `*` "denotes any encoding not otherwise listed", of which
the first in priority order is taken; any other entry stands for nothing.  The negotiator's
code is missing from the sources. -/
def offer (prefs : List Entry) (supported : List Encoding) (p : Entry) : Option Encoding :=
  if p.isStar then supported.find? (fun e => !listed prefs e)
  else supported.find? (fun e => p.names e)

/-- Priority of an encoding: its position in the ordered supported set. -/
def rank (supported : List Encoding) (e : Encoding) : Nat :=
  supported.indexOf e

/-- Modelled from the spec: "filter tokens to those matching a supported encoding or `*`;
discard quality-0 entries".  Each remaining entry gives the encoding it stands for and its
quality.  The negotiator's code is missing from the sources. -/
def candidates (prefs : List Entry) (supported : List Encoding) : List (Encoding × Quality) :=
  prefs.filterMap fun p =>
    if p.quality.pos then (offer prefs supported p).map (fun e => (e, p.quality)) else none

/-- Candidate `b` beats candidate `a`: higher quality, or equal quality and earlier in the
priority order. -/
def beats (supported : List Encoding) (a b : Encoding × Quality) : Bool :=
  decide (a.2 < b.2) || (decide (b.2 ≤ a.2) && decide (a.2 ≤ b.2) &&
    decide (rank supported b.1 < rank supported a.1))

/-- Candidate `a` is at least as good as candidate `b`: its quality is not lower, and at
equal quality it does not come later in the priority order. -/
def AtLeast (supported : List Encoding) (a b : Encoding × Quality) : Prop :=
  b.2 ≤ a.2 ∧ (a.2 ≤ b.2 → rank supported a.1 ≤ rank supported b.1)

/-- Modelled from the spec: "among remaining, pick the entry with the highest quality; on
ties, pick by a fixed priority order".  One pass keeping the best candidate so far.  The
negotiator's code is missing from the sources. -/
def pick (supported : List Encoding) :
    Option (Encoding × Quality) → List (Encoding × Quality) → Option (Encoding × Quality)
  | cur, [] => cur
  | none, c :: cs => pick supported (some c) cs
  | some a, c :: cs => pick supported (some (if beats supported a c then c else a)) cs

/-- Modelled from the spec: the Negotiator, `select(acceptEncodingHeader, supported)`.  An
absent header is treated "as identity only"; "if no entry qualifies, result is identity".
The negotiator's code is missing from the sources. -/
def select (header : Option String) (supported : List Encoding) : NegotiationResult :=
  match header with
  | none => NegotiationResult.identity
  | some h =>
    match pick supported none (candidates (parseAcceptEncoding h) supported) with
    | none => NegotiationResult.identity
    | some c => NegotiationResult.encoding c.1

/-- The default ordered supported set: gzip, deflate, br. -/
def defaultSupported : List Encoding :=
  [Encoding.gzip, Encoding.deflate, Encoding.br]

/-- The inbound request as the middleware sees it: method, path and request headers. -/
structure Request where
  method : String
  path : String
  headers : Headers

/-- The outbound response: status, response headers and body. -/
structure Response where
  status : Nat
  headers : Headers
  body : Bytes
  deriving DecidableEq

/-- Modelled from the spec: CompressionConfig, "a skip-predicate ... and optionally a
compression-level parameter", with the recognised option `supportedEncodings`; `none` is
the library's default level.  The middleware's code is missing from the sources. -/
structure CompressionConfig where
  skip : Request → Bool
  supportedEncodings : List Encoding
  level : Option Nat

/-- Modelled from the spec: the default configuration, "skip: never skip,
supportedEncodings: gzip, deflate, br, level: library default".  The middleware's code is
missing from the sources. -/
def ConfigDefault : CompressionConfig :=
  { skip := fun _ => false, supportedEncodings := defaultSupported, level := none }

/-- The compressors of the three encodings, which are library code: the compressed form of
a body at a given level. -/
abbrev Codec := Encoding → Option Nat → Bytes → Bytes

/-- The Vary value already lists Accept-Encoding. -/
def varyListsAcceptEncoding (v : String) : Bool :=
  ((splitOn ',' v.data).map (fun item => (trim item).map Char.toLower)).contains
    "accept-encoding".data

/-- Modelled from the spec: "appends Accept-Encoding to the Vary header (merging with any
existing value, avoiding duplicate entries)".  The middleware's code is missing from the
sources. -/
def mergeVary (hs : Headers) : Headers :=
  match getHeader "Vary" hs with
  | none => setHeader "Vary" "Accept-Encoding" hs
  | some v =>
    if varyListsAcceptEncoding v then hs
    else setHeader "Vary" (v ++ ", Accept-Encoding") hs

/-- Modelled from the spec: the header rewriter and encoder of section 4.2 applied to the
handler's response: Content-Encoding is set to the token, Content-Length is removed,
Accept-Encoding is merged into Vary, and the body is compressed.  The middleware's code is
missing from the sources. -/
def rewrite (codec : Codec) (level : Option Nat) (e : Encoding) (r : Response) : Response :=
  { status := r.status
    headers := mergeVary (delHeader "Content-Length"
      (setHeader "Content-Encoding" e.token r.headers))
    body := codec e level r.body }

/-- Modelled from the spec: the middleware filter.  A skipped request passes through; the
other requests are negotiated on their Accept-Encoding header, the downstream handler
always runs, and its response is rewritten when an encoding was chosen.  The middleware's
code is missing from the sources. -/
def middleware (codec : Codec) (cfg : CompressionConfig) (next : Request → Response)
    (req : Request) : Response :=
  if cfg.skip req then next req
  else
    match select (getHeader "Accept-Encoding" req.headers) cfg.supportedEncodings with
    | NegotiationResult.identity => next req
    | NegotiationResult.encoding e => rewrite codec cfg.level e (next req)

/-- Modelled from the spec: the constructor `New` called by compress_test.go, with an
optional configuration as in `New()`.  The middleware's code is missing from the
sources. -/
def New (codec : Codec) (config : List CompressionConfig) :
    (Request → Response) → Request → Response :=
  match config with
  | [] => middleware codec ConfigDefault
  | cfg :: _ => middleware codec cfg

/-- The handler of compress_test.go, `return c.Send(body)`: on a fresh response, whose
status is 200 and which has no header, it stores the body. -/
def sendHandler (body : Bytes) : Request → Response :=
  fun _ => { status := 200, headers := [], body := body }

end Compress

theorem getHeader_filter_ne (k k' : String) (hs : Headers) (h : k ≠ k') :
    getHeader k (hs.filter (fun p => p.1 != k')) = getHeader k hs := by
  induction hs with
  | nil => rfl
  | cons p hs ih =>
    obtain ⟨a, v⟩ := p
    rw [List.filter_cons]
    by_cases ha : a = k'
    · have hak : a ≠ k := fun e => h (e ▸ ha)
      simp [ha, getHeader, ih, Ne.symm h]
    · by_cases hk : a = k
      · subst hk
        simp [ha, getHeader]
      · simp [ha, getHeader, hk, ih]

theorem getHeader_filter_same (k : String) (hs : Headers) :
    getHeader k (hs.filter (fun p => p.1 != k)) = none := by
  induction hs with
  | nil => rfl
  | cons p hs ih =>
    obtain ⟨a, v⟩ := p
    rw [List.filter_cons]
    by_cases ha : a = k
    · simp [ha, ih]
    · simp [ha, getHeader, ih]

theorem getHeader_setHeader_same (k v : String) (hs : Headers) :
    getHeader k (setHeader k v hs) = some v := by
  simp [setHeader, getHeader]

theorem getHeader_setHeader_ne (k k' v : String) (hs : Headers) (h : k ≠ k') :
    getHeader k (setHeader k' v hs) = getHeader k hs := by
  simp [setHeader, getHeader, Ne.symm h, getHeader_filter_ne k k' hs h]

namespace Favicon

theorem utf8ByteSize_faviconPath : "/favicon.ico".utf8ByteSize = 12 := by decide

theorem pathCheck_favicon (c : Ctx) (h : c.path = "/favicon.ico") :
    pathCheck c = ([Call.path, Call.path], false) := by
  simp [pathCheck, h, utf8ByteSize_faviconPath]

theorem pathCheck_other (c : Ctx) (h : c.path ≠ "/favicon.ico") :
    (pathCheck c).2 = true := by
  unfold pathCheck
  split <;> simp [h]

theorem skipCheck_false (cfg : Config) (c : Ctx) (h : ∀ f, cfg.Next = some f → f c = false) :
    skipCheck cfg c = ((skipCheck cfg c).1, false) := by
  unfold skipCheck
  cases hN : cfg.Next with
  | none => rfl
  | some f => simp [h f hN]

theorem handler_skip (cfg : Config) (icon : Bytes) (iconLen : String) (c : Ctx)
    (f : Ctx → Bool) (hN : cfg.Next = some f) (hf : f c = true) :
    handler cfg icon iconLen c = ⟨[Call.cfgNext, Call.next], Ret.ofNext⟩ := by
  simp [handler, skipCheck, hN, hf]

theorem skipCheck_calls (cfg : Config) (c : Ctx) :
    (skipCheck cfg c).1 = [] ∨ (skipCheck cfg c).1 = [Call.cfgNext] := by
  unfold skipCheck
  cases cfg.Next <;> simp

theorem exec_append (env : Env) (xs ys : List Call) (c : Ctx) :
    exec env (xs ++ ys) c = exec env ys (exec env xs c) := by
  induction xs generalizing c with
  | nil => rfl
  | cons x xs ih => simp [exec, ih]

theorem exec_skipCheck (env : Env) (cfg : Config) (c c0 : Ctx) :
    exec env (skipCheck cfg c0).1 c = c := by
  rcases skipCheck_calls cfg c0 with h | h <;> simp [h, exec, Call.apply]

theorem exec_pathCheck (env : Env) (c c0 : Ctx) :
    exec env (pathCheck c0).1 c = c := by
  unfold pathCheck
  split <;> simp [exec, Call.apply]

theorem exec_methodCheck (env : Env) (c c0 : Ctx) :
    exec env (methodCheck c0).1 c = c := by
  unfold methodCheck
  split <;> simp [exec, Call.apply]

theorem handler_other (cfg : Config) (icon : Bytes) (iconLen : String) (c : Ctx)
    (hskip : ∀ f, cfg.Next = some f → f c = false) (hpath : c.path ≠ "/favicon.ico") :
    handler cfg icon iconLen c =
      ⟨(skipCheck cfg c).1 ++ (pathCheck c).1 ++ [Call.next], Ret.ofNext⟩ := by
  have h1 := skipCheck_false cfg c hskip
  have h2 : pathCheck c = ((pathCheck c).1, true) := by
    rw [← pathCheck_other c hpath]
  unfold handler
  rw [h1, h2]

theorem handler_favicon_method (cfg : Config) (icon : Bytes) (iconLen : String) (c : Ctx)
    (hskip : ∀ f, cfg.Next = some f → f c = false) (hpath : c.path = "/favicon.ico")
    (hget : c.method ≠ "GET") (hhead : c.method ≠ "HEAD") :
    handler cfg icon iconLen c =
      ⟨(skipCheck cfg c).1 ++ [Call.path, Call.path] ++ [Call.method, Call.method] ++
        [Call.method,
         if c.method != "OPTIONS" then Call.status 405 else Call.status 200,
         Call.set "Allow" "GET, HEAD, OPTIONS", Call.set "Content-Length" "0"], Ret.nil⟩ := by
  have h1 := skipCheck_false cfg c hskip
  have h2 := pathCheck_favicon c hpath
  have h3 : methodCheck c = ([Call.method, Call.method], true) := by
    simp [methodCheck, MethodGet, MethodHead, hget, hhead]
  unfold handler
  rw [h1, h2, h3]
  rfl

theorem handler_favicon_icon (cfg : Config) (icon : Bytes) (iconLen : String) (c : Ctx)
    (hskip : ∀ f, cfg.Next = some f → f c = false) (hpath : c.path = "/favicon.ico")
    (hm : c.method = "GET" ∨ c.method = "HEAD") (hicon : icon ≠ []) :
    handler cfg icon iconLen c =
      ⟨(skipCheck cfg c).1 ++ [Call.path, Call.path] ++ (methodCheck c).1 ++
        [Call.set "Content-Length" iconLen, Call.set "Content-Type" "image/x-icon",
         Call.set "Cache-Control" "public, max-age=31536000", Call.status 200,
         Call.send icon], Ret.ofSend⟩ := by
  have h1 := skipCheck_false cfg c hskip
  have h2 := pathCheck_favicon c hpath
  have h3 : methodCheck c = ((methodCheck c).1, false) := by
    rcases hm with hm | hm <;> simp [methodCheck, MethodGet, MethodHead, hm]
  have h4 : icon.length > 0 := List.length_pos.mpr hicon
  unfold handler
  rw [h1, h2, h3]
  simp [h4, HeaderContentLength, HeaderContentType, HeaderCacheControl, hType, hCache, StatusOK]

theorem handler_favicon_noicon (cfg : Config) (iconLen : String) (c : Ctx)
    (hskip : ∀ f, cfg.Next = some f → f c = false) (hpath : c.path = "/favicon.ico")
    (hm : c.method = "GET" ∨ c.method = "HEAD") :
    handler cfg [] iconLen c =
      ⟨(skipCheck cfg c).1 ++ [Call.path, Call.path] ++ (methodCheck c).1 ++
        [Call.sendStatus 204], Ret.ofSendStatus⟩ := by
  have h1 := skipCheck_false cfg c hskip
  have h2 := pathCheck_favicon c hpath
  have h3 : methodCheck c = ((methodCheck c).1, false) := by
    rcases hm with hm | hm <;> simp [methodCheck, MethodGet, MethodHead, hm]
  unfold handler
  rw [h1, h2, h3]
  simp [StatusNoContent]

theorem next_not_mem_skipCheck (cfg : Config) (c : Ctx) : Call.next ∉ (skipCheck cfg c).1 := by
  rcases skipCheck_calls cfg c with h | h <;> simp [h]

theorem next_not_mem_methodCheck (c : Ctx) : Call.next ∉ (methodCheck c).1 := by
  unfold methodCheck
  split <;> simp

theorem New_cons (readFile : String → Option Bytes) (cfg : Config) (rest : List Config)
    (icon : Bytes) (hfile : cfg.File ≠ "") (hread : readFile cfg.File = some icon) :
    New readFile (cfg :: rest) = some (handler cfg icon (Itoa icon.length)) := by
  obtain ⟨nx, file⟩ := cfg
  cases nx <;> simp_all [New, ConfigDefault]

/-- C5: when `New` is given a configuration whose File is read into a non-empty icon, it
returns a handler, and on every non-skipped GET or HEAD request for "/favicon.ico" that
handler leaves status 200, the icon as body, Content-Type "image/x-icon", Cache-Control
"public, max-age=31536000" and Content-Length equal to the decimal digits of the icon's
length, and never calls the next handler. -/
theorem favicon_serves_cached_icon (readFile : String → Option Bytes) (cfg : Config)
    (rest : List Config) (icon : Bytes)
    (hfile : cfg.File ≠ "") (hread : readFile cfg.File = some icon) (hicon : icon ≠ []) :
    ∃ h, New readFile (cfg :: rest) = some h ∧
      ∀ (env : Env) (c : Ctx), (∀ f, cfg.Next = some f → f c = false) →
        c.path = "/favicon.ico" → (c.method = "GET" ∨ c.method = "HEAD") →
        (exec env (h c).calls c).status = 200 ∧
        (exec env (h c).calls c).body = icon ∧
        getHeader "Content-Type" (exec env (h c).calls c).headers = some "image/x-icon" ∧
        getHeader "Cache-Control" (exec env (h c).calls c).headers
          = some "public, max-age=31536000" ∧
        getHeader "Content-Length" (exec env (h c).calls c).headers
          = some (Nat.repr icon.length) ∧
        Call.next ∉ (h c).calls := by
  refine ⟨_, New_cons readFile cfg rest icon hfile hread, ?_⟩
  intro env c hskip hpath hm
  rw [handler_favicon_icon cfg icon _ c hskip hpath hm hicon]
  have hn1 := next_not_mem_skipCheck cfg c
  have hn2 := next_not_mem_methodCheck c
  simp only [exec_append, exec_skipCheck, exec_methodCheck]
  simp [exec, Call.apply, getHeader_setHeader_same, getHeader_setHeader_ne, Itoa, hn1, hn2]

/-- Witness of C5: a two-byte icon read from "icon.ico", no skip hook, a GET request for
"/favicon.ico" on a context whose status was 404. -/
theorem favicon_serves_cached_icon_witness :
    (New (fun _ => some [1, 2]) [⟨none, "icon.ico"⟩]).map
        (fun h =>
          let c : Ctx := ⟨"/favicon.ico", "GET", 404, [], []⟩
          let r := exec ⟨id, fun _ x => x⟩ (h c).calls c
          (r.status, r.body, getHeader "Content-Length" r.headers))
      = some (200, [1, 2], some "2") := by
  obtain ⟨h, hN, hall⟩ := favicon_serves_cached_icon (fun _ => some [1, 2])
    ⟨none, "icon.ico"⟩ [] [1, 2] (by decide) rfl (by decide)
  have hc := hall ⟨id, fun _ x => x⟩ ⟨"/favicon.ico", "GET", 404, [], []⟩
    (by simp) rfl (Or.inl rfl)
  rw [hN]
  simp only [Option.map_some', hc.1, hc.2.1, hc.2.2.2.2.1]
  rfl

/-- C6: on every non-skipped request for "/favicon.ico" whose method is neither GET nor
HEAD the handler returns nil, sends no body and does not call next, sets Allow to
"GET, HEAD, OPTIONS" and Content-Length to "0", and sets status 200 for OPTIONS and 405
for every other method, whatever icon is cached. -/
theorem favicon_only_get_head_options (cfg : Config) (icon : Bytes) (iconLen : String)
    (env : Env) (c : Ctx)
    (hskip : ∀ f, cfg.Next = some f → f c = false) (hpath : c.path = "/favicon.ico")
    (hget : c.method ≠ "GET") (hhead : c.method ≠ "HEAD") :
    (handler cfg icon iconLen c).ret = Ret.nil ∧
    (∀ b, Call.send b ∉ (handler cfg icon iconLen c).calls) ∧
    (∀ n, Call.sendStatus n ∉ (handler cfg icon iconLen c).calls) ∧
    Call.next ∉ (handler cfg icon iconLen c).calls ∧
    (exec env (handler cfg icon iconLen c).calls c).body = c.body ∧
    getHeader "Allow" (exec env (handler cfg icon iconLen c).calls c).headers
      = some "GET, HEAD, OPTIONS" ∧
    getHeader "Content-Length" (exec env (handler cfg icon iconLen c).calls c).headers
      = some "0" ∧
    (exec env (handler cfg icon iconLen c).calls c).status
      = (if c.method = "OPTIONS" then 200 else 405) := by
  rw [handler_favicon_method cfg icon iconLen c hskip hpath hget hhead]
  simp only [exec_append, exec_skipCheck]
  rcases skipCheck_calls cfg c with h0 | h0 <;> by_cases ho : c.method = "OPTIONS" <;>
    simp [h0, ho, exec, Call.apply, getHeader_setHeader_same, getHeader_setHeader_ne]

/-- Witness of C6: a DELETE request for "/favicon.ico", no skip hook, a one-byte icon. -/
theorem favicon_only_get_head_options_witness :
    (handler ⟨none, "f"⟩ [7] "1" ⟨"/favicon.ico", "DELETE", 200, [], []⟩).ret = Ret.nil ∧
    (exec ⟨id, fun _ c => c⟩
      (handler ⟨none, "f"⟩ [7] "1" ⟨"/favicon.ico", "DELETE", 200, [], []⟩).calls
      ⟨"/favicon.ico", "DELETE", 200, [], []⟩).status = 405 :=
  have h := favicon_only_get_head_options ⟨none, "f"⟩ [7] "1" ⟨id, fun _ c => c⟩
    ⟨"/favicon.ico", "DELETE", 200, [], []⟩ (by simp) rfl (by decide) (by decide)
  ⟨h.1, h.2.2.2.2.2.2.2⟩

theorem writes_skipCheck (cfg : Config) (c : Ctx) :
    ∀ call ∈ (skipCheck cfg c).1, call.writes = false := by
  rcases skipCheck_calls cfg c with h | h <;> simp [h, Call.writes]

theorem writes_pathCheck (c : Ctx) : ∀ call ∈ (pathCheck c).1, call.writes = false := by
  unfold pathCheck
  split <;> simp [Call.writes]

theorem next_not_mem_handler_favicon (cfg : Config) (icon : Bytes) (iconLen : String)
    (c : Ctx) (hskip : ∀ f, cfg.Next = some f → f c = false)
    (hpath : c.path = "/favicon.ico") : Call.next ∉ (handler cfg icon iconLen c).calls := by
  have hn1 := next_not_mem_skipCheck cfg c
  have hn2 := next_not_mem_methodCheck c
  by_cases hm : c.method = "GET" ∨ c.method = "HEAD"
  · cases icon with
    | nil =>
      rw [handler_favicon_noicon cfg iconLen c hskip hpath hm]
      simp [hn1, hn2]
    | cons b bs =>
      rw [handler_favicon_icon cfg (b :: bs) iconLen c hskip hpath hm (by simp)]
      simp [hn1, hn2]
  · rw [not_or] at hm
    rw [handler_favicon_method cfg icon iconLen c hskip hpath hm.1 hm.2]
    by_cases ho : c.method = "OPTIONS" <;> simp [hn1, ho]

/-- C7: on every request not skipped by Next the handler calls the next handler if and
only if the path is not exactly "/favicon.ico"; when it delegates it returns the next
handler's result, writes no status, header or body, and leaves the context exactly as the
next handler does; the length check accepts "/favicon.ico", whose length is 12. -/
theorem favicon_delegates_iff_other_path (cfg : Config) (icon : Bytes) (iconLen : String)
    (c : Ctx) (hskip : ∀ f, cfg.Next = some f → f c = false) :
    (Call.next ∈ (handler cfg icon iconLen c).calls ↔ c.path ≠ "/favicon.ico") ∧
    (c.path ≠ "/favicon.ico" →
      (handler cfg icon iconLen c).ret = Ret.ofNext ∧
      (∀ call ∈ (handler cfg icon iconLen c).calls, call.writes = false) ∧
      ∀ env : Env, exec env (handler cfg icon iconLen c).calls c = env.next c) ∧
    (c.path = "/favicon.ico" →
      c.path.utf8ByteSize = 12 ∧ (pathCheck c).2 = false ∧
      (handler cfg icon iconLen c).ret ≠ Ret.ofNext) := by
  refine ⟨?_, ?_, ?_⟩
  · constructor
    · intro hmem hpath
      exact next_not_mem_handler_favicon cfg icon iconLen c hskip hpath hmem
    · intro hpath
      rw [handler_other cfg icon iconLen c hskip hpath]
      simp
  · intro hpath
    rw [handler_other cfg icon iconLen c hskip hpath]
    refine ⟨rfl, ?_, ?_⟩
    · intro call hcall
      simp only [List.mem_append, List.mem_singleton] at hcall
      rcases hcall with (h | h) | h
      · exact writes_skipCheck cfg c call h
      · exact writes_pathCheck c call h
      · subst h
        rfl
    · intro env
      simp only [exec_append, exec_skipCheck, exec_pathCheck]
      rfl
  · intro hpath
    refine ⟨by rw [hpath]; exact utf8ByteSize_faviconPath, by rw [pathCheck_favicon c hpath], ?_⟩
    by_cases hm : c.method = "GET" ∨ c.method = "HEAD"
    · cases icon with
      | nil =>
        rw [handler_favicon_noicon cfg iconLen c hskip hpath hm]
        simp
      | cons b bs =>
        rw [handler_favicon_icon cfg (b :: bs) iconLen c hskip hpath hm (by simp)]
        simp
    · rw [not_or] at hm
      rw [handler_favicon_method cfg icon iconLen c hskip hpath hm.1 hm.2]
      simp

/-- Witness of C7: with a skip hook that answers false, a GET for "/index.html" is
delegated and a GET for "/favicon.ico" is not. -/
theorem favicon_delegates_iff_other_path_witness :
    Call.next ∈ (handler ⟨some (fun _ => false), ""⟩ [] ""
      ⟨"/index.html", "GET", 200, [], []⟩).calls ∧
    Call.next ∉ (handler ⟨some (fun _ => false), ""⟩ [] ""
      ⟨"/favicon.ico", "GET", 200, [], []⟩).calls :=
  ⟨(favicon_delegates_iff_other_path ⟨some (fun _ => false), ""⟩ [] ""
      ⟨"/index.html", "GET", 200, [], []⟩ (by simp)).1.mpr (by decide),
   fun h => (favicon_delegates_iff_other_path ⟨some (fun _ => false), ""⟩ [] ""
      ⟨"/favicon.ico", "GET", 200, [], []⟩ (by simp)).1.mp h rfl⟩

theorem handler_calls_shape (cfg : Config) (icon : Bytes) (iconLen : String) (c : Ctx) :
    ∃ rest, (handler cfg icon iconLen c).calls = (skipCheck cfg c).1 ++ rest ∧
      Call.cfgNext ∉ rest := by
  have h1 : Call.cfgNext ∉ (pathCheck c).1 := by
    unfold pathCheck
    split <;> simp
  have h2 : Call.cfgNext ∉ (methodCheck c).1 := by
    unfold methodCheck
    split <;> simp
  unfold handler
  generalize skipCheck cfg c = s0
  generalize pathCheck c = p1 at h1 ⊢
  generalize methodCheck c = p2 at h2 ⊢
  obtain ⟨t0, b0⟩ := s0
  obtain ⟨t1, b1⟩ := p1
  obtain ⟨t2, b2⟩ := p2
  simp only at h1 h2
  cases b0 <;> cases b1 <;> cases b2 <;> simp only [List.append_assoc] <;>
    (try split) <;> refine ⟨_, rfl, ?_⟩ <;>
    simp [h1, h2]

/-- C8: when `Config.Next` is not nil and returns true, the handler only asks the hook
and calls the next handler: it returns the next handler's result, writes no status, header
or body and leaves the context exactly as the next handler does, whatever the path, the
method and the cached icon.  On every request the hook is asked at most once, and when it
is asked it is the first call, before any reading of the path or the method. -/
theorem favicon_skip_hook (cfg : Config) (icon : Bytes) (iconLen : String) (c : Ctx) :
    (∀ f, cfg.Next = some f → f c = true →
      handler cfg icon iconLen c = ⟨[Call.cfgNext, Call.next], Ret.ofNext⟩ ∧
      (∀ call ∈ (handler cfg icon iconLen c).calls, call.writes = false) ∧
      ∀ env : Env, exec env (handler cfg icon iconLen c).calls c = env.next c) ∧
    (handler cfg icon iconLen c).calls.count Call.cfgNext ≤ 1 ∧
    (Call.cfgNext ∈ (handler cfg icon iconLen c).calls →
      (handler cfg icon iconLen c).calls.head? = some Call.cfgNext) ∧
    (cfg.Next ≠ none → (handler cfg icon iconLen c).calls.head? = some Call.cfgNext) := by
  obtain ⟨rest, hcalls, hrest⟩ := handler_calls_shape cfg icon iconLen c
  refine ⟨?_, ?_, ?_, ?_⟩
  · intro f hN hf
    rw [handler_skip cfg icon iconLen c f hN hf]
    refine ⟨rfl, ?_, ?_⟩
    · simp [Call.writes]
    · intro env
      rfl
  · rw [hcalls, List.count_append, List.count_eq_zero_of_not_mem hrest]
    rcases skipCheck_calls cfg c with h | h <;> simp [h]
  · rw [hcalls]
    rcases skipCheck_calls cfg c with h | h
    · simp [h, hrest]
    · simp [h]
  · intro hN
    rw [hcalls]
    cases hf : cfg.Next with
    | none => exact absurd hf hN
    | some f => simp [skipCheck, hf]

/-- Witness of C8: a hook that always answers true, a POST for "/favicon.ico". -/
theorem favicon_skip_hook_witness :
    handler ⟨some (fun _ => true), "f"⟩ [7] "1" ⟨"/favicon.ico", "POST", 200, [], []⟩
      = ⟨[Call.cfgNext, Call.next], Ret.ofNext⟩ :=
  ((favicon_skip_hook ⟨some (fun _ => true), "f"⟩ [7] "1"
    ⟨"/favicon.ico", "POST", 200, [], []⟩).1 (fun _ => true) rfl rfl).1

end Favicon

namespace Compress

theorem Quality.le_def (a b : Quality) :
    a ≤ b ↔ a.num * 10 ^ b.scale ≤ b.num * 10 ^ a.scale := Iff.rfl

theorem Quality.lt_def (a b : Quality) :
    a < b ↔ a.num * 10 ^ b.scale < b.num * 10 ^ a.scale := Iff.rfl

theorem Quality.not_lt (a b : Quality) : ¬ a < b ↔ b ≤ a := by
  rw [Quality.lt_def, Quality.le_def]
  exact Nat.not_lt

theorem Quality.le_of_lt (a b : Quality) (h : a < b) : a ≤ b := by
  rw [Quality.lt_def] at h
  rw [Quality.le_def]
  exact Nat.le_of_lt h

theorem Quality.le_refl (a : Quality) : a ≤ a := by
  rw [Quality.le_def]

theorem Quality.le_trans (a b c : Quality) (hab : a ≤ b) (hbc : b ≤ c) : a ≤ c := by
  rw [Quality.le_def] at *
  have hpos : 0 < 10 ^ b.scale := by positivity
  apply Nat.le_of_mul_le_mul_right _ hpos
  calc a.num * 10 ^ c.scale * 10 ^ b.scale
      = a.num * 10 ^ b.scale * 10 ^ c.scale := by ring
    _ ≤ b.num * 10 ^ a.scale * 10 ^ c.scale := Nat.mul_le_mul_right _ hab
    _ = b.num * 10 ^ c.scale * 10 ^ a.scale := by ring
    _ ≤ c.num * 10 ^ b.scale * 10 ^ a.scale := Nat.mul_le_mul_right _ hbc
    _ = c.num * 10 ^ a.scale * 10 ^ b.scale := by ring

theorem AtLeast.refl (supported : List Encoding) (a : Encoding × Quality) :
    AtLeast supported a a :=
  ⟨Quality.le_refl _, fun _ => Nat.le_refl _⟩

theorem AtLeast.trans (supported : List Encoding) (a b c : Encoding × Quality)
    (hab : AtLeast supported a b) (hbc : AtLeast supported b c) : AtLeast supported a c := by
  refine ⟨Quality.le_trans _ _ _ hbc.1 hab.1, fun hac => ?_⟩
  have h1 : a.2 ≤ b.2 := Quality.le_trans _ _ _ hac hbc.1
  have h2 : b.2 ≤ c.2 := Quality.le_trans _ _ _ hab.1 hac
  exact Nat.le_trans (hab.2 h1) (hbc.2 h2)

theorem atLeast_of_beats (supported : List Encoding) (a c : Encoding × Quality)
    (h : beats supported a c = true) : AtLeast supported c a := by
  simp only [beats, Bool.or_eq_true, Bool.and_eq_true, decide_eq_true_eq] at h
  rcases h with h | ⟨⟨_, h2⟩, h3⟩
  · refine ⟨Quality.le_of_lt _ _ h, fun hca => ?_⟩
    exact absurd h ((Quality.not_lt _ _).mpr hca)
  · exact ⟨h2, fun _ => Nat.le_of_lt h3⟩

theorem atLeast_of_not_beats (supported : List Encoding) (a c : Encoding × Quality)
    (h : beats supported a c = false) : AtLeast supported a c := by
  simp only [beats, Bool.or_eq_false_iff, Bool.and_eq_false_iff, decide_eq_false_iff_not] at h
  obtain ⟨h1, h2⟩ := h
  have hca : c.2 ≤ a.2 := (Quality.not_lt _ _).mp h1
  refine ⟨hca, fun hac => ?_⟩
  rcases h2 with (h2 | h2) | h2
  · exact absurd hca h2
  · exact absurd hac h2
  · exact Nat.not_lt.mp h2

theorem pick_some_spec (supported : List Encoding) (cs : List (Encoding × Quality)) :
    ∀ a : Encoding × Quality, ∃ r, pick supported (some a) cs = some r ∧ r ∈ a :: cs ∧
      ∀ c ∈ a :: cs, AtLeast supported r c := by
  induction cs with
  | nil =>
    intro a
    exact ⟨a, rfl, by simp, by simpa using AtLeast.refl supported a⟩
  | cons c cs ih =>
    intro a
    cases hb : beats supported a c with
    | true =>
      obtain ⟨r, hr, hmem, hall⟩ := ih c
      refine ⟨r, by simp [pick, hb, hr], ?_, ?_⟩
      · exact List.mem_cons_of_mem _ hmem
      · intro x hx
        rcases List.mem_cons.mp hx with hx | hx
        · subst hx
          exact AtLeast.trans _ _ _ _ (hall c (by simp)) (atLeast_of_beats _ _ _ hb)
        · exact hall x hx
    | false =>
      obtain ⟨r, hr, hmem, hall⟩ := ih a
      refine ⟨r, by simp [pick, hb, hr], ?_, ?_⟩
      · rcases List.mem_cons.mp hmem with h | h
        · simp [h]
        · simp [h]
      · intro x hx
        rcases List.mem_cons.mp hx with hx | hx
        · subst hx
          exact hall x (by simp)
        · rcases List.mem_cons.mp hx with hx | hx
          · subst hx
            exact AtLeast.trans _ _ _ _ (hall a (by simp)) (atLeast_of_not_beats _ _ _ hb)
          · exact hall x (by simp [hx])

theorem pick_none_spec (supported : List Encoding) (cs : List (Encoding × Quality)) :
    (cs = [] → pick supported none cs = none) ∧
    (cs ≠ [] → ∃ r, pick supported none cs = some r ∧ r ∈ cs ∧
      ∀ c ∈ cs, AtLeast supported r c) := by
  cases cs with
  | nil => exact ⟨fun _ => rfl, fun h => absurd rfl h⟩
  | cons c cs =>
    refine ⟨fun h => by simp at h, fun _ => ?_⟩
    obtain ⟨r, hr, hmem, hall⟩ := pick_some_spec supported cs c
    exact ⟨r, by simpa [pick] using hr, hmem, hall⟩

theorem mem_candidates (prefs : List Entry) (supported : List Encoding) (e : Encoding)
    (q : Quality) :
    (e, q) ∈ candidates prefs supported ↔
      ∃ p ∈ prefs, p.quality.pos ∧ offer prefs supported p = some e ∧ p.quality = q := by
  simp only [candidates, List.mem_filterMap]
  constructor
  · rintro ⟨p, hp, h⟩
    by_cases hpos : p.quality.pos
    · simp only [hpos, if_true, Option.map_eq_some', Prod.mk.injEq] at h
      obtain ⟨e', he', rfl, rfl⟩ := h
      exact ⟨p, hp, hpos, he', rfl⟩
    · simp [hpos] at h
  · rintro ⟨p, hp, hpos, hoff, rfl⟩
    exact ⟨p, hp, by simp [hpos, hoff]⟩

theorem candidates_eq_nil (prefs : List Entry) (supported : List Encoding) :
    candidates prefs supported = [] ↔
      ∀ p ∈ prefs, p.quality.pos → offer prefs supported p = none := by
  constructor
  · intro h p hp hpos
    cases hoff : offer prefs supported p with
    | none => rfl
    | some e =>
      have : (e, p.quality) ∈ candidates prefs supported :=
        (mem_candidates prefs supported e p.quality).mpr ⟨p, hp, hpos, hoff, rfl⟩
      rw [h] at this
      simp at this
  · intro h
    apply List.eq_nil_iff_forall_not_mem.mpr
    rintro ⟨e, q⟩ hmem
    obtain ⟨p, hp, hpos, hoff, _⟩ := (mem_candidates prefs supported e q).mp hmem
    rw [h p hp hpos] at hoff
    simp at hoff

theorem offer_sound (prefs : List Entry) (supported : List Encoding) (p : Entry)
    (e : Encoding) (h : offer prefs supported p = some e) :
    e ∈ supported ∧
      ((p.isStar = false ∧ p.names e = true) ∨ (p.isStar = true ∧ listed prefs e = false)) := by
  unfold offer at h
  by_cases hs : p.isStar = true
  · rw [if_pos hs] at h
    have h1 := List.find?_some h
    exact ⟨List.mem_of_find?_eq_some h, Or.inr ⟨hs, by simpa using h1⟩⟩
  · rw [if_neg hs] at h
    have h1 := List.find?_some h
    exact ⟨List.mem_of_find?_eq_some h, Or.inl ⟨by simpa using hs, h1⟩⟩

theorem select_spec (h : String) (supported : List Encoding) :
    ((∀ p ∈ parseAcceptEncoding h, p.quality.pos →
        offer (parseAcceptEncoding h) supported p = none) ↔
      select (some h) supported = NegotiationResult.identity) ∧
    (∀ e, select (some h) supported = NegotiationResult.encoding e →
      ∃ p ∈ parseAcceptEncoding h, p.quality.pos ∧
        offer (parseAcceptEncoding h) supported p = some e ∧
        e ∈ supported ∧
        ((p.isStar = false ∧ p.names e = true) ∨
          (p.isStar = true ∧ listed (parseAcceptEncoding h) e = false)) ∧
        ∀ p' ∈ parseAcceptEncoding h, p'.quality.pos →
          ∀ e', offer (parseAcceptEncoding h) supported p' = some e' →
            p'.quality ≤ p.quality ∧
            (p.quality ≤ p'.quality → rank supported e ≤ rank supported e')) := by
  have hp := pick_none_spec supported (candidates (parseAcceptEncoding h) supported)
  by_cases hc : candidates (parseAcceptEncoding h) supported = []
  · have hpick := hp.1 hc
    have hsel : select (some h) supported = NegotiationResult.identity := by
      simp [select, hpick]
    refine ⟨⟨fun _ => hsel, fun _ => (candidates_eq_nil _ _).mp hc⟩, ?_⟩
    intro e he
    rw [hsel] at he
    cases he
  · obtain ⟨r, hr, hmem, hall⟩ := hp.2 hc
    have hsel : select (some h) supported = NegotiationResult.encoding r.1 := by
      simp [select, hr]
    refine ⟨⟨fun hnone => absurd ((candidates_eq_nil _ _).mpr hnone) hc, fun hid => ?_⟩, ?_⟩
    · rw [hsel] at hid
      cases hid
    · intro e he
      rw [hsel] at he
      injection he with he
      subst he
      obtain ⟨p, hpm, hpos, hoff, hq⟩ := (mem_candidates _ _ r.1 r.2).mp hmem
      have hs := offer_sound _ _ _ _ hoff
      refine ⟨p, hpm, hpos, hoff, hs.1, hs.2, ?_⟩
      intro p' hp' hpos' e' hoff'
      have hm' : (e', p'.quality) ∈ candidates (parseAcceptEncoding h) supported :=
        (mem_candidates _ _ e' p'.quality).mpr ⟨p', hp', hpos', hoff', rfl⟩
      have := hall _ hm'
      rw [hq]
      exact this

/-- C3: the negotiator returns identity exactly when no entry of the header with quality
above 0 stands for a supported encoding (by naming it, or as `*`); otherwise it returns the
encoding of such an entry whose quality is highest, and among entries of that quality the
one whose encoding comes first in the priority order, which for the default supported set
is gzip, deflate, br.  The header `gzip;q=0.5, deflate;q=0.8` selects deflate and
`identity;q=0, *;q=1` selects gzip. -/
theorem negotiator_selects_best :
    (∀ (h : String) (supported : List Encoding),
      ((∀ p ∈ parseAcceptEncoding h, p.quality.pos →
          offer (parseAcceptEncoding h) supported p = none) ↔
        select (some h) supported = NegotiationResult.identity) ∧
      (∀ e, select (some h) supported = NegotiationResult.encoding e →
        ∃ p ∈ parseAcceptEncoding h, p.quality.pos ∧
          offer (parseAcceptEncoding h) supported p = some e ∧
          e ∈ supported ∧
          ((p.isStar = false ∧ p.names e = true) ∨
            (p.isStar = true ∧ listed (parseAcceptEncoding h) e = false)) ∧
          ∀ p' ∈ parseAcceptEncoding h, p'.quality.pos →
            ∀ e', offer (parseAcceptEncoding h) supported p' = some e' →
              p'.quality ≤ p.quality ∧
              (p.quality ≤ p'.quality → rank supported e ≤ rank supported e'))) ∧
    (rank defaultSupported Encoding.gzip < rank defaultSupported Encoding.deflate ∧
      rank defaultSupported Encoding.deflate < rank defaultSupported Encoding.br) ∧
    select (some "gzip;q=0.5, deflate;q=0.8") [Encoding.gzip, Encoding.deflate, Encoding.br]
      = NegotiationResult.encoding Encoding.deflate ∧
    select (some "identity;q=0, *;q=1") [Encoding.gzip, Encoding.deflate, Encoding.br]
      = NegotiationResult.encoding Encoding.gzip :=
  ⟨select_spec, by decide, by decide, by decide⟩

/-- Witness of C3: a header whose only entries are an unknown token and identity. -/
theorem negotiator_selects_best_witness :
    select (some "x-custom, identity") defaultSupported = NegotiationResult.identity :=
  ((negotiator_selects_best.1 "x-custom, identity" defaultSupported).1).mp (by decide)

theorem New_eq_middleware (codec : Codec) (config : List CompressionConfig) :
    New codec config = middleware codec (config.headD ConfigDefault) := by
  cases config <;> rfl

theorem getHeader_mergeVary (k : String) (hs : Headers) (hk : k ≠ "Vary") :
    getHeader k (mergeVary hs) = getHeader k hs := by
  unfold mergeVary
  split
  · exact getHeader_setHeader_ne k "Vary" _ hs hk
  · split
    · rfl
    · exact getHeader_setHeader_ne k "Vary" _ hs hk

theorem rewrite_contentEncoding (codec : Codec) (level : Option Nat) (e : Encoding)
    (r : Response) :
    getHeader "Content-Encoding" (rewrite codec level e r).headers = some e.token := by
  simp only [rewrite]
  rw [getHeader_mergeVary _ _ (by decide), delHeader,
    getHeader_filter_ne _ _ _ (by decide), getHeader_setHeader_same]

theorem select_single_token (t : Encoding) :
    select (some t.token) defaultSupported = NegotiationResult.encoding t := by
  cases t <;> decide

/-- C1: for each of gzip, deflate and br, when the middleware built by `New()` with the
default configuration wraps a handler that sends a non-empty body, every GET request whose
Accept-Encoding header is exactly that token gets a response with status 200 and with
Content-Encoding equal to the token. -/
theorem compress_sets_content_encoding (codec : Codec) (t : Encoding) (body : Bytes)
    (req : Request) (_hbody : body ≠ []) (_hget : req.method = "GET")
    (hae : getHeader "Accept-Encoding" req.headers = some t.token) :
    (New codec [] (sendHandler body) req).status = 200 ∧
    getHeader "Content-Encoding" (New codec [] (sendHandler body) req).headers
      = some t.token := by
  have hnew : New codec [] (sendHandler body) req
      = rewrite codec none t (sendHandler body req) := by
    simp [New, middleware, ConfigDefault, hae, select_single_token]
  rw [hnew]
  exact ⟨rfl, rewrite_contentEncoding codec none t _⟩

/-- Witness of C1: the identity codec, a one-byte body and a GET request for "/" with
Accept-Encoding "br". -/
theorem compress_sets_content_encoding_witness :
    (New (fun _ _ b => b) [] (sendHandler [1]) ⟨"GET", "/", [("Accept-Encoding", "br")]⟩).status
      = 200 ∧
    getHeader "Content-Encoding"
      (New (fun _ _ b => b) [] (sendHandler [1])
        ⟨"GET", "/", [("Accept-Encoding", "br")]⟩).headers = some "br" :=
  compress_sets_content_encoding (fun _ _ b => b) Encoding.br [1]
    ⟨"GET", "/", [("Accept-Encoding", "br")]⟩ (by decide) rfl (by decide)

theorem offer_none_of_unsupported (prefs : List Entry) (supported : List Encoding) (p : Entry)
    (hstar : p.isStar = false) (hn : ∀ e ∈ supported, p.names e = false) :
    offer prefs supported p = none := by
  unfold offer
  rw [hstar]
  simp only [Bool.false_eq_true, if_false]
  apply List.find?_eq_none.mpr
  intro e he
  simp [hn e he]

/-- C4, as amended: when the request has no Accept-Encoding header, or its Accept-Encoding
header lists only tokens that match no supported encoding (a token matches by naming the
encoding, `*` matches any), the middleware leaves the response body, status and headers
equal to the handler's; the Content-Encoding header of the response is therefore the
handler's own, and the middleware adds none. -/
theorem compress_passthrough_without_supported (codec : Codec)
    (config : List CompressionConfig) (next : Request → Response) (req : Request)
    (h : getHeader "Accept-Encoding" req.headers = none ∨
      ∃ v, getHeader "Accept-Encoding" req.headers = some v ∧
        ∀ p ∈ parseAcceptEncoding v, p.isStar = false ∧
          ∀ e ∈ (config.headD ConfigDefault).supportedEncodings, p.names e = false) :
    (New codec config next req).body = (next req).body ∧
    (New codec config next req).status = (next req).status ∧
    (New codec config next req).headers = (next req).headers ∧
    getHeader "Content-Encoding" (New codec config next req).headers
      = getHeader "Content-Encoding" (next req).headers := by
  have hsel : select (getHeader "Accept-Encoding" req.headers)
      (config.headD ConfigDefault).supportedEncodings = NegotiationResult.identity := by
    rcases h with h | ⟨v, hv, hall⟩
    · rw [h]
      rfl
    · rw [hv]
      apply ((select_spec v _).1).mp
      intro p hp _
      exact offer_none_of_unsupported _ _ p (hall p hp).1 (hall p hp).2
  have hnew : New codec config next req = next req := by
    rw [New_eq_middleware]
    unfold middleware
    split
    · rfl
    · rw [hsel]
  rw [hnew]
  exact ⟨rfl, rfl, rfl, rfl⟩

/-- Witness of C4 as amended: a request whose Accept-Encoding is "compress, identity",
under the default configuration, with a handler sending one byte and setting no header. -/
theorem compress_passthrough_without_supported_witness :
    (New (fun _ _ _ => []) [] (sendHandler [1])
      ⟨"GET", "/", [("Accept-Encoding", "compress, identity")]⟩).body = [1] ∧
    getHeader "Content-Encoding" (New (fun _ _ _ => []) [] (sendHandler [1])
      ⟨"GET", "/", [("Accept-Encoding", "compress, identity")]⟩).headers = none :=
  have h := compress_passthrough_without_supported (fun _ _ _ => []) [] (sendHandler [1])
    ⟨"GET", "/", [("Accept-Encoding", "compress, identity")]⟩
    (Or.inr ⟨"compress, identity", by decide, by decide⟩)
  ⟨h.1, h.2.2.2⟩

/-- Counterexample to C4 as stated: the request has no Accept-Encoding header, the handler
sends one byte and sets Content-Encoding to gzip itself; the body is left unmodified, yet
the response carries a Content-Encoding header. -/
theorem compress_passthrough_content_encoding_counterexample :
    getHeader "Accept-Encoding" (⟨"GET", "/", []⟩ : Request).headers = none ∧
    (New (fun _ _ _ => []) [] (fun _ => ⟨200, [("Content-Encoding", "gzip")], [1]⟩)
      ⟨"GET", "/", []⟩).body = [1] ∧
    getHeader "Content-Encoding"
      (New (fun _ _ _ => []) [] (fun _ => ⟨200, [("Content-Encoding", "gzip")], [1]⟩)
        ⟨"GET", "/", []⟩).headers = some "gzip" ∧
    ¬ (∀ (codec : Codec) (next : Request → Response) (req : Request),
        getHeader "Accept-Encoding" req.headers = none →
        (New codec [] next req).body = (next req).body ∧
        getHeader "Content-Encoding" (New codec [] next req).headers = none) := by
  refine ⟨by decide, by decide, by decide, ?_⟩
  intro hall
  have h := (hall (fun _ _ _ => []) (fun _ => ⟨200, [("Content-Encoding", "gzip")], [1]⟩)
    ⟨"GET", "/", []⟩ (by decide)).2
  revert h
  decide

end Compress
